import Mathlib

/-! # Verification of the SecureSquawk3G slow VM core

Shallow embedding of the parts of the `slowvm` C sources relevant to the
spec's claims: the switch-event wait queue (eb40a-io.c), the instruction
decoder (trace.c), the buffer registry (squawk.c), the breakpoint protocol
(debug.c) and the copy-bytes channel operation (cio.c).  Machine integers
are modelled as `Int`/`Nat` with explicit wrapping where overflow matters.
-/

/-! ## Switch-event wait queue (src/slowvm/src/rts/gcc-eb40a/eb40a-io.c)

The pending switch-event requests form a singly linked FIFO rooted at
`switchRequests`; it is modelled as a `List` whose head is the front of
the FIFO.  The hardware predicate `sw_is_pressed` (defined outside
`src/`) is passed in as a function `pressed`. -/

/-- A pending switch-event request (`struct switchRequest`, eb40a-io.c
lines 9-14): the assigned sequence number and the switch mask; the
`next` link is represented by the enclosing list. -/
structure SwitchRequest where
  eventNumber : Int
  mask : Int
  deriving Repr, DecidableEq

/-- `storeSwitchRequest` (eb40a-io.c lines 26-49).  `allocOk` models
whether the `malloc` of the new record succeeds; `resultException` stands
for the `ChannelConstants_RESULT_EXCEPTION` constant, whose numeric value
is defined outside `src/`.  On success the new record is linked at the
tail of the FIFO with `eventNumber` one more than the tail record's
(1 for an empty queue).  Returns the new queue and the C `int` result. -/
def storeSwitchRequest (allocOk : Bool) (resultException : Int)
    (queue : List SwitchRequest) (switchMask : Int) :
    List SwitchRequest × Int :=
  if !allocOk then
    (queue, resultException)
  else
    match queue.getLast? with
    | none => (queue ++ [⟨1, switchMask⟩], 1)
    | some tailReq =>
        (queue ++ [⟨tailReq.eventNumber + 1, switchMask⟩],
         tailReq.eventNumber + 1)

/-- `getEventPrim` (eb40a-io.c lines 76-102): scan the FIFO front to back
for the first record whose mask is currently pressed; return its
`eventNumber` (0 if none) and, when `removeEventFlag` is set, unlink
exactly that record. -/
def getEventPrim (pressed : Int → Bool) (removeEventFlag : Bool) :
    List SwitchRequest → List SwitchRequest × Int
  | [] => ([], 0)
  | current :: rest =>
    if pressed current.mask then
      (if removeEventFlag then rest else current :: rest,
       current.eventNumber)
    else
      let r := getEventPrim pressed removeEventFlag rest
      (current :: r.1, r.2)

/-- `getEvent` (eb40a-io.c lines 58-60): consuming check. -/
def getEvent (pressed : Int → Bool) (queue : List SwitchRequest) :
    List SwitchRequest × Int :=
  getEventPrim pressed true queue

/-- `checkForEvents` (eb40a-io.c lines 66-68): non-consuming check. -/
def checkForEvents (pressed : Int → Bool) (queue : List SwitchRequest) :
    List SwitchRequest × Int :=
  getEventPrim pressed false queue

/-- The `ChannelConstants_SW_READ` case of `ioExecute` (eb40a-io.c lines
161-169): if the switch is pressed the result is 0 and the queue is left
alone, otherwise the request is stored via `storeSwitchRequest`. -/
def ioExecute_swRead (allocOk : Bool) (resultException : Int)
    (pressed : Int → Bool) (queue : List SwitchRequest) (mask : Int) :
    List SwitchRequest × Int :=
  if pressed mask then (queue, 0)
  else storeSwitchRequest allocOk resultException queue mask

/-- The sequence number `storeSwitchRequest` hands out on the success
path: the tail record's `eventNumber + 1`, or 1 for an empty queue. -/
def nextSeqNumber (queue : List SwitchRequest) : Int :=
  match queue.getLast? with
  | none => 1
  | some tailReq => tailReq.eventNumber + 1

theorem storeSwitchRequest_ok (resultException : Int)
    (queue : List SwitchRequest) (mask : Int) :
    storeSwitchRequest true resultException queue mask =
      (queue ++ [⟨nextSeqNumber queue, mask⟩], nextSeqNumber queue) := by
  cases h : queue.getLast? with
  | none => simp [storeSwitchRequest, nextSeqNumber, h]
  | some t => simp [storeSwitchRequest, nextSeqNumber, h]

/-- **C2, counterexample.**  The queue state holding the single record
with sequence number 2 (reachable by enqueuing two requests and consuming
the first) refutes the claim: a read-switch request for a non-asserted
switch on this queue returns 3, not the queue length plus one (2). -/
theorem swRead_seq_ne_length_succ :
    ¬((ioExecute_swRead true (-2) (fun _ => false)
        [⟨2, 5⟩] 7).2 =
      ([(⟨2, 5⟩ : SwitchRequest)].length : Int) + 1) := by
  decide

/-- **C2 (amended).**  A read-switch request for an asserted switch
returns 0 and leaves the queue unchanged.  For a non-asserted switch it
appends exactly one record at the tail and returns the tail record's
sequence number plus one (1 when the queue was empty); this equals the
queue length plus one whenever the queued sequence numbers are exactly
`1..n` in order (in particular right after any run of enqueues into an
initially empty queue). -/
theorem swRead_spec (pressed : Int → Bool) (resultException : Int)
    (queue : List SwitchRequest) (mask : Int) :
    (pressed mask = true →
      ioExecute_swRead true resultException pressed queue mask =
        (queue, 0)) ∧
    (pressed mask = false →
      ioExecute_swRead true resultException pressed queue mask =
        (queue ++ [⟨nextSeqNumber queue, mask⟩], nextSeqNumber queue)) ∧
    (pressed mask = false →
      queue.map SwitchRequest.eventNumber =
        (List.range queue.length).map (fun i : Nat => (i : Int) + 1) →
      (ioExecute_swRead true resultException pressed queue mask).2 =
        (queue.length : Int) + 1) := by
  refine ⟨fun h => by simp [ioExecute_swRead, h], fun h => ?_, fun h hnum => ?_⟩
  · simp [ioExecute_swRead, h, storeSwitchRequest_ok]
  · rcases hq : queue.getLast? with _ | t
    · have h0 : queue = [] := List.getLast?_eq_none_iff.mp hq
      subst h0
      simp [ioExecute_swRead, h, storeSwitchRequest_ok, nextSeqNumber]
    · have hne : queue ≠ [] := by
        intro h0; rw [h0] at hq; simp at hq
      have hpos : 0 < queue.length := List.length_pos.mpr hne
      have hget : queue[queue.length - 1]? = some t := by
        rw [← List.getLast?_eq_getElem?]; exact hq
      have h2 : ((List.range queue.length).map
          (fun i : Nat => (i : Int) + 1))[queue.length - 1]? =
          some t.eventNumber := by
        rw [← hnum, List.getElem?_map, hget]; rfl
      rw [List.getElem?_map,
        List.getElem?_range (show queue.length - 1 < queue.length by omega)]
        at h2
      have hlast : t.eventNumber = (queue.length : Int) := by
        have h3 : ((queue.length - 1 : Nat) : Int) + 1 = t.eventNumber := by
          simpa using h2
        omega
      simp [ioExecute_swRead, h, storeSwitchRequest_ok, nextSeqNumber, hq,
        hlast]

/-- **C2 (amended), witness.** -/
theorem swRead_spec_witness :
    ioExecute_swRead true (-2) (fun m => decide (m = 9))
        [⟨1, 9⟩, ⟨2, 5⟩] 9 = ([⟨1, 9⟩, ⟨2, 5⟩], 0) ∧
    (ioExecute_swRead true (-2) (fun _ => false)
        [⟨1, 3⟩, ⟨2, 4⟩] 6).2 = 3 := by
  constructor
  · exact (swRead_spec (fun m => decide (m = 9)) (-2) [⟨1, 9⟩, ⟨2, 5⟩] 9).1
      (by decide)
  · have := (swRead_spec (fun _ => false) (-2) [⟨1, 3⟩, ⟨2, 4⟩] 6).2.2
      rfl (by decide)
    simpa using this

theorem getEventPrim_no_match (pressed : Int → Bool) (flag : Bool) :
    ∀ queue : List SwitchRequest,
      (∀ x ∈ queue, pressed x.mask = false) →
      getEventPrim pressed flag queue = (queue, 0)
  | [] => fun _ => rfl
  | current :: rest => fun hall => by
      have hc : pressed current.mask = false := hall current (by simp)
      have ih := getEventPrim_no_match pressed flag rest
        (fun x hx => hall x (by simp [hx]))
      simp [getEventPrim, hc, ih]

theorem getEventPrim_first_match (pressed : Int → Bool) (flag : Bool)
    (req : SwitchRequest) (l₂ : List SwitchRequest)
    (hreq : pressed req.mask = true) :
    ∀ l₁ : List SwitchRequest,
      (∀ x ∈ l₁, pressed x.mask = false) →
      getEventPrim pressed flag (l₁ ++ req :: l₂) =
        ((if flag then l₁ ++ l₂ else l₁ ++ req :: l₂), req.eventNumber)
  | [] => fun _ => by
      cases flag <;> simp [getEventPrim, hreq]
  | x :: l₁ => fun hall => by
      have hx : pressed x.mask = false := hall x (by simp)
      have ih := getEventPrim_first_match pressed flag req l₂ hreq l₁
        (fun y hy => hall y (by simp [hy]))
      cases flag <;> simp [getEventPrim, hx, ih]

/-- **C3.**  For every queue and every assertion state of the switches,
the event check returns the sequence number of the first record in FIFO
order whose mask is asserted, or 0 if none matches; the consuming check
(`getEvent`) removes exactly that record, keeping the others in order,
while the non-consuming check (`checkForEvents`) leaves the queue
unchanged in every case. -/
theorem getEventPrim_spec (pressed : Int → Bool)
    (queue l₁ l₂ : List SwitchRequest) (req : SwitchRequest) :
    ((∀ x ∈ queue, pressed x.mask = false) →
      getEvent pressed queue = (queue, 0) ∧
      checkForEvents pressed queue = (queue, 0)) ∧
    (queue = l₁ ++ req :: l₂ →
      (∀ x ∈ l₁, pressed x.mask = false) →
      pressed req.mask = true →
      getEvent pressed queue = (l₁ ++ l₂, req.eventNumber) ∧
      checkForEvents pressed queue = (queue, req.eventNumber)) := by
  constructor
  · intro hall
    exact ⟨getEventPrim_no_match pressed true queue hall,
      getEventPrim_no_match pressed false queue hall⟩
  · intro hdec hbefore hreq
    subst hdec
    have h1 := getEventPrim_first_match pressed true req l₂ hreq l₁ hbefore
    have h2 := getEventPrim_first_match pressed false req l₂ hreq l₁ hbefore
    simp at h1 h2
    exact ⟨h1, h2⟩

/-- **C3, witness.**  With switches such that only mask 4 is asserted and
the queue `[(1,3), (2,4), (3,5)]`, the consuming check returns 2 and
removes exactly the middle record; the non-consuming check returns 2 and
leaves the queue unchanged. -/
theorem getEventPrim_spec_witness :
    getEvent (fun m => decide (m = 4)) [⟨1, 3⟩, ⟨2, 4⟩, ⟨3, 5⟩] =
      ([⟨1, 3⟩, ⟨3, 5⟩], 2) ∧
    checkForEvents (fun m => decide (m = 4)) [⟨1, 3⟩, ⟨2, 4⟩, ⟨3, 5⟩] =
      ([⟨1, 3⟩, ⟨2, 4⟩, ⟨3, 5⟩], 2) :=
  (getEventPrim_spec (fun m => decide (m = 4))
    [⟨1, 3⟩, ⟨2, 4⟩, ⟨3, 5⟩] [⟨1, 3⟩] [⟨3, 5⟩] ⟨2, 4⟩).2
    (by decide) (by decide) (by decide)

/-- **C10.**  If the `malloc` of a new wait record fails,
`storeSwitchRequest` returns the `ChannelConstants_RESULT_EXCEPTION`
code with the queue completely unchanged; since that code is a dedicated
negative error code, the read-switch path can then return a value that is
neither 0 nor any sequence number the success path ever assigns to a
queue whose records are numbered from 1. -/
theorem swRead_allocFail (resultException : Int) (pressed : Int → Bool)
    (queue : List SwitchRequest) (mask : Int) :
    (pressed mask = false →
      ioExecute_swRead false resultException pressed queue mask =
        (queue, resultException)) ∧
    (resultException < 0 →
      resultException ≠ 0 ∧
      ∀ q' : List SwitchRequest, ∀ m' : Int,
        (∀ x ∈ q', 1 ≤ x.eventNumber) →
        resultException ≠ (storeSwitchRequest true resultException q' m').2) := by
  constructor
  · intro h
    simp [ioExecute_swRead, h, storeSwitchRequest]
  · intro hneg
    refine ⟨by omega, fun q' m' hall => ?_⟩
    rw [storeSwitchRequest_ok]
    rcases hq : q'.getLast? with _ | t
    · simp [nextSeqNumber, hq]; omega
    · have ht : t ∈ q' := List.mem_of_mem_getLast? (by rw [hq]; rfl)
      have := hall t ht
      simp [nextSeqNumber, hq]
      omega

/-- **C10, witness.** -/
theorem swRead_allocFail_witness :
    ioExecute_swRead false (-2) (fun _ => false) [⟨1, 3⟩] 5 =
      ([⟨1, 3⟩], -2) ∧
    (-2 : Int) ≠ 0 ∧
    (-2 : Int) ≠ (storeSwitchRequest true (-2) [⟨1, 3⟩] 5).2 := by
  refine ⟨(swRead_allocFail (-2) (fun _ => false) [⟨1, 3⟩] 5).1 rfl, ?_, ?_⟩
  · exact ((swRead_allocFail (-2) (fun _ => false) [⟨1, 3⟩] 5).2
      (by decide)).1
  · exact ((swRead_allocFail (-2) (fun _ => false) [⟨1, 3⟩] 5).2
      (by decide)).2 [⟨1, 3⟩] 5 (by decide)

/-! ## Instruction decoder (src/slowvm/src/vm/trace.c, `decodeInstruction`)

The bytecode is modelled as a byte-addressed memory `mem : Nat → Nat`
(each value a byte, 0-255) together with the instruction pointer.  The
`OPC_*` constants and the `fetchUByte`/`fetchByte`/`fetchShort`/
`fetchInt`/`fetchLong` macros used by `decodeInstruction` are generated
code living outside `src/`, so the constants are parameters and the
multi-byte fetches are modelled from the spec. -/

/-- The bytecode-set constants consumed by `decodeInstruction`.  Their
numeric values come from the generated `rom.h`, which is outside `src/`,
so the decoder is parametrised over them. -/
structure OpcodeSet where
  wideM1 : Nat
  wide0 : Nat
  wide1 : Nat
  wideShort : Nat
  wideInt : Nat
  escape : Nat
  escapeWideM1 : Nat
  escapeWide0 : Nat
  escapeWide1 : Nat
  escapeWideShort : Nat
  escapeWideInt : Nat
  constByte : Nat
  constShort : Nat
  constChar : Nat
  constInt : Nat
  constLong : Nat
  constFloat : Nat
  constDouble : Nat
  firstParm : Nat
  parmCount : Nat
  firstEscapeParm : Nat
  escapeParmCount : Nat
  deriving Repr, DecidableEq

/-- The case labels of the `switch` in `decodeInstruction` (trace.c
lines 96-241), in source order. -/
def OpcodeSet.caseLabels (c : OpcodeSet) : List Nat :=
  [c.wideM1, c.wide0, c.wide1, c.wideShort, c.wideInt, c.escape,
   c.escapeWideM1, c.escapeWide0, c.escapeWide1, c.escapeWideShort,
   c.escapeWideInt, c.constByte, c.constShort, c.constChar, c.constInt,
   c.constLong]

/-- A C `switch` requires its case labels to be pairwise distinct; this
is the corresponding well-formedness condition on an `OpcodeSet`. -/
def OpcodeSet.Lawful (c : OpcodeSet) : Prop := c.caseLabels.Nodup

instance (c : OpcodeSet) : Decidable c.Lawful := by
  unfold OpcodeSet.Lawful
  infer_instance

/-- Modelled from the spec: the 32-bit two's-complement bit pattern of a
signed byte (`fetchByte`, defined outside `src/`). -/
def signExtend8 (b : Nat) : Nat :=
  if b < 0x80 then b else 0xFFFFFF00 ||| b

/-- Modelled from the spec: the 32-bit two's-complement bit pattern of a
signed 16-bit value. -/
def signExtend16 (v : Nat) : Nat :=
  if v < 0x8000 then v else 0xFFFF0000 ||| v

/-- Modelled from the spec: `fetchShort` (defined outside `src/`) reads
the next 2 bytes as a signed 16-bit value; the byte order within the
value is chosen big-endian here (the spec fixes only that 2 bytes are
read as one signed value). -/
def fetchShortVal (mem : Nat → Nat) (addr : Nat) : Nat :=
  signExtend16 (mem addr * 0x100 + mem (addr + 1))

/-- Modelled from the spec: `fetchUShort` reads the next 2 bytes as an
unsigned 16-bit value. -/
def fetchUShortVal (mem : Nat → Nat) (addr : Nat) : Nat :=
  mem addr * 0x100 + mem (addr + 1)

/-- Modelled from the spec: `fetchInt` reads the next 4 bytes as a 32-bit
value. -/
def fetchIntVal (mem : Nat → Nat) (addr : Nat) : Nat :=
  ((mem addr * 0x100 + mem (addr + 1)) * 0x100 + mem (addr + 2)) * 0x100 +
    mem (addr + 3)

/-- Modelled from the spec: `fetchLong` reads the next 8 bytes as a
64-bit value. -/
def fetchLongVal (mem : Nat → Nat) (addr : Nat) : Nat :=
  fetchIntVal mem addr * 0x100000000 + fetchIntVal mem (addr + 4)

/-- The struct `DecodedInstruction` (trace.c lines 38-70).  `tag` is 0
(no operand), 1 (int), 2 (long), 3 (float bits) or 4 (double bits);
`pfx` models the C field `prefix` (-1 if no prefix applies); `operand`
is the bit pattern of the active member of the C operand union (0 when
`tag = 0`, where the C union is never read). -/
structure DecodedInstruction where
  tag : Nat
  pfx : Int
  opcode : Int
  operand : Nat
  deriving Repr, DecidableEq

/-- `decodeInstruction` (trace.c lines 78-244), with the C `switch`
rendered as an equality chain over the pairwise distinct case labels in
source order.  Returns the decoded instruction and the final value of
the instruction pointer.  The `OPC_CONST_FLOAT`/`OPC_CONST_DOUBLE`
sub-cases model the float-enabled (`java_lang_VM_fcmpl`) build. -/
def decodeInstruction (c : OpcodeSet) (mem : Nat → Nat) (ip0 : Nat) :
    DecodedInstruction × Nat :=
  let opcode := mem ip0
  let ip := ip0 + 1
  if opcode = c.wideM1 then
    (⟨1, opcode, mem ip, 0xFFFFFF00 ||| mem (ip + 1)⟩, ip + 2)
  else if opcode = c.wide0 then
    (⟨1, opcode, mem ip, mem (ip + 1)⟩, ip + 2)
  else if opcode = c.wide1 then
    (⟨1, opcode, mem ip, 0x100 ||| mem (ip + 1)⟩, ip + 2)
  else if opcode = c.wideShort then
    (⟨1, opcode, mem (ip + 2), fetchShortVal mem ip⟩, ip + 3)
  else if opcode = c.wideInt then
    (⟨1, opcode, mem (ip + 4), fetchIntVal mem ip⟩, ip + 5)
  else if opcode = c.escape then
    let eopcode := mem ip + 256
    if eopcode = c.constFloat then
      (⟨3, -1, eopcode, fetchIntVal mem (ip + 1)⟩, ip + 5)
    else if eopcode = c.constDouble then
      (⟨4, -1, eopcode, fetchLongVal mem (ip + 1)⟩, ip + 9)
    else if c.firstEscapeParm ≤ eopcode ∧
        eopcode < c.firstEscapeParm + c.escapeParmCount then
      (⟨1, opcode, eopcode, mem (ip + 1)⟩, ip + 2)
    else
      (⟨0, opcode, eopcode, 0⟩, ip + 1)
  else if opcode = c.escapeWideM1 then
    (⟨1, opcode, mem ip + 256, 0xFFFFFF00 ||| mem (ip + 1)⟩, ip + 2)
  else if opcode = c.escapeWide0 then
    (⟨1, opcode, mem ip + 256, mem (ip + 1)⟩, ip + 2)
  else if opcode = c.escapeWide1 then
    (⟨1, opcode, mem ip + 256, 0x100 ||| mem (ip + 1)⟩, ip + 2)
  else if opcode = c.escapeWideShort then
    (⟨1, opcode, mem (ip + 2) + 256, fetchShortVal mem ip⟩, ip + 3)
  else if opcode = c.escapeWideInt then
    (⟨1, opcode, mem (ip + 4) + 256, fetchIntVal mem ip⟩, ip + 5)
  else if opcode = c.constByte then
    (⟨1, -1, opcode, signExtend8 (mem ip)⟩, ip + 1)
  else if opcode = c.constShort then
    (⟨1, -1, opcode, fetchShortVal mem ip⟩, ip + 2)
  else if opcode = c.constChar then
    (⟨1, -1, opcode, fetchUShortVal mem ip⟩, ip + 2)
  else if opcode = c.constInt then
    (⟨1, -1, opcode, fetchIntVal mem ip⟩, ip + 4)
  else if opcode = c.constLong then
    (⟨2, -1, opcode, fetchLongVal mem ip⟩, ip + 8)
  else if c.firstParm ≤ opcode ∧ opcode < c.firstParm + c.parmCount then
    (⟨1, -1, opcode, signExtend8 (mem ip)⟩, ip + 1)
  else
    (⟨0, -1, opcode, 0⟩, ip)

/-- **C1.**  For every byte sequence, the decoder produces exactly the
operand and tag dictated by the prefix grammar: after `WIDE_M1` the
operand is `0xFFFFFF00` OR-ed with the byte following the opcode byte;
after `WIDE_0` it is that byte; after `WIDE_1` it is `0x100` OR-ed with
that byte; after `WIDE_SHORT`/`WIDE_INT` it is the 2 or 4 bytes
following the prefix read as a signed value (the opcode byte coming
after them); each escape-combined wide prefix additionally adds 256 to
the opcode byte read for the instruction; and decoding the bytes
`[WIDE_M1, OPC_X, 0x05]` yields opcode `OPC_X` with operand
`0xFFFFFF05`. -/
theorem decodeInstruction_wide_spec (c : OpcodeSet) (mem : Nat → Nat)
    (ip0 : Nat) (X : Nat) (hl : c.Lawful) :
    (mem ip0 = c.wideM1 →
      decodeInstruction c mem ip0 =
        (⟨1, c.wideM1, mem (ip0 + 1), 0xFFFFFF00 ||| mem (ip0 + 2)⟩,
         ip0 + 3)) ∧
    (mem ip0 = c.wide0 →
      decodeInstruction c mem ip0 =
        (⟨1, c.wide0, mem (ip0 + 1), mem (ip0 + 2)⟩, ip0 + 3)) ∧
    (mem ip0 = c.wide1 →
      decodeInstruction c mem ip0 =
        (⟨1, c.wide1, mem (ip0 + 1), 0x100 ||| mem (ip0 + 2)⟩, ip0 + 3)) ∧
    (mem ip0 = c.wideShort →
      decodeInstruction c mem ip0 =
        (⟨1, c.wideShort, mem (ip0 + 3), fetchShortVal mem (ip0 + 1)⟩,
         ip0 + 4)) ∧
    (mem ip0 = c.wideInt →
      decodeInstruction c mem ip0 =
        (⟨1, c.wideInt, mem (ip0 + 5), fetchIntVal mem (ip0 + 1)⟩,
         ip0 + 6)) ∧
    (mem ip0 = c.escapeWideM1 →
      decodeInstruction c mem ip0 =
        (⟨1, c.escapeWideM1, mem (ip0 + 1) + 256,
          0xFFFFFF00 ||| mem (ip0 + 2)⟩, ip0 + 3)) ∧
    (mem ip0 = c.escapeWide0 →
      decodeInstruction c mem ip0 =
        (⟨1, c.escapeWide0, mem (ip0 + 1) + 256, mem (ip0 + 2)⟩,
         ip0 + 3)) ∧
    (mem ip0 = c.escapeWide1 →
      decodeInstruction c mem ip0 =
        (⟨1, c.escapeWide1, mem (ip0 + 1) + 256,
          0x100 ||| mem (ip0 + 2)⟩, ip0 + 3)) ∧
    (mem ip0 = c.escapeWideShort →
      decodeInstruction c mem ip0 =
        (⟨1, c.escapeWideShort, mem (ip0 + 3) + 256,
          fetchShortVal mem (ip0 + 1)⟩, ip0 + 4)) ∧
    (mem ip0 = c.escapeWideInt →
      decodeInstruction c mem ip0 =
        (⟨1, c.escapeWideInt, mem (ip0 + 5) + 256,
          fetchIntVal mem (ip0 + 1)⟩, ip0 + 6)) ∧
    (mem ip0 = c.wideM1 → mem (ip0 + 1) = X → mem (ip0 + 2) = 0x05 →
      (decodeInstruction c mem ip0).1.opcode = X ∧
      (decodeInstruction c mem ip0).1.operand = 0xFFFFFF05) := by
  simp only [OpcodeSet.Lawful, OpcodeSet.caseLabels, List.nodup_cons,
    List.mem_cons, List.mem_singleton, not_or, List.nodup_nil,
    List.not_mem_nil] at hl
  obtain ⟨⟨h01, h02, h03, h04, h05, h06, h07, h08, h09, h0a, -⟩,
    ⟨h12, h13, h14, h15, h16, h17, h18, h19, h1a, -⟩,
    ⟨h23, h24, h25, h26, h27, h28, h29, h2a, -⟩,
    ⟨h34, h35, h36, h37, h38, h39, h3a, -⟩,
    ⟨h45, h46, h47, h48, h49, h4a, -⟩,
    ⟨h56, h57, h58, h59, h5a, -⟩,
    ⟨h67, h68, h69, h6a, -⟩,
    ⟨h78, h79, h7a, -⟩,
    ⟨h89, h8a, -⟩,
    ⟨h9a, -⟩, -⟩ := hl
  refine ⟨fun h => ?_, fun h => ?_, fun h => ?_, fun h => ?_, fun h => ?_,
    fun h => ?_, fun h => ?_, fun h => ?_, fun h => ?_, fun h => ?_,
    fun h hX h5 => ?_⟩
  · simp [decodeInstruction, h, Nat.add_assoc]
  · simp [decodeInstruction, h, Ne.symm h01, Nat.add_assoc]
  · simp [decodeInstruction, h, Ne.symm h02, Ne.symm h12, Nat.add_assoc]
  · simp [decodeInstruction, h, Ne.symm h03, Ne.symm h13, Ne.symm h23,
      Nat.add_assoc]
  · simp [decodeInstruction, h, Ne.symm h04, Ne.symm h14, Ne.symm h24,
      Ne.symm h34, Nat.add_assoc]
  · simp [decodeInstruction, h, Ne.symm h06, Ne.symm h16, Ne.symm h26,
      Ne.symm h36, Ne.symm h46, Ne.symm h56, Nat.add_assoc]
  · simp [decodeInstruction, h, Ne.symm h07, Ne.symm h17, Ne.symm h27,
      Ne.symm h37, Ne.symm h47, Ne.symm h57, Ne.symm h67, Nat.add_assoc]
  · simp [decodeInstruction, h, Ne.symm h08, Ne.symm h18, Ne.symm h28,
      Ne.symm h38, Ne.symm h48, Ne.symm h58, Ne.symm h68, Ne.symm h78,
      Nat.add_assoc]
  · simp [decodeInstruction, h, Ne.symm h09, Ne.symm h19, Ne.symm h29,
      Ne.symm h39, Ne.symm h49, Ne.symm h59, Ne.symm h69, Ne.symm h79,
      Ne.symm h89, Nat.add_assoc]
  · simp [decodeInstruction, h, Ne.symm h0a, Ne.symm h1a, Ne.symm h2a,
      Ne.symm h3a, Ne.symm h4a, Ne.symm h5a, Ne.symm h6a, Ne.symm h7a,
      Ne.symm h8a, Ne.symm h9a, Nat.add_assoc]
  · simp [decodeInstruction, h, hX, h5, Nat.add_assoc]

/-- A sample opcode assignment with pairwise distinct case labels, used
to instantiate the decoder theorems at concrete inputs. -/
def sampleOpcodes : OpcodeSet :=
  ⟨255, 254, 253, 252, 251, 250, 249, 248, 247, 246, 245, 244, 243, 242,
   241, 240, 260, 261, 100, 20, 300, 20⟩

/-- A sample bytecode memory holding `[WIDE_M1, 77, 0x05]` at address
0 with the `sampleOpcodes` encoding. -/
def sampleMem : Nat → Nat := fun a => [255, 77, 5].getD a 0

/-- **C1, witness.**  Decoding the concrete bytes `[WIDE_M1, 77, 0x05]`
yields opcode 77 with operand `0xFFFFFF05`. -/
theorem decodeInstruction_wide_spec_witness :
    sampleOpcodes.Lawful ∧
    (decodeInstruction sampleOpcodes sampleMem 0).1.opcode = 77 ∧
    (decodeInstruction sampleOpcodes sampleMem 0).1.operand = 0xFFFFFF05 :=
  ⟨by decide,
   (decodeInstruction_wide_spec sampleOpcodes sampleMem 0 77
      (by decide)).2.2.2.2.2.2.2.2.2.2 (by decide) (by decide) (by decide)⟩

/-! ## Buffer registry (src/slowvm/src/vm/squawk.c)

The `Buffers`/`BufferCount` registry (globals.h) is modelled as a list of
buffer addresses (naturals) in registration order; `fatalVMError` is
modelled as `Except.error`. -/

/-- `MAX_BUFFERS` (squawk.c line 137). -/
def MAX_BUFFERS : Nat := 10

/-- The registry aspect of `newBuffer` (squawk.c lines 285-334): already
holding `MAX_BUFFERS` buffers is the fatal error "exceeded MAX_BUFFERS
allocations", otherwise the new buffer is appended at `Buffers[BufferCount++]`. -/
def newBuffer (buffers : List Nat) (buffer : Nat) : Except Unit (List Nat) :=
  if MAX_BUFFERS ≤ buffers.length then .error ()
  else .ok (buffers ++ [buffer])

/-- `freeBuffer` (squawk.c lines 340-363): every matching entry is freed
and the non-matching entries are compacted in order; afterwards, unless
exactly one entry matched, the fatal error "buffer not in Buffers exactly
once" is raised. -/
def freeBuffer (buffers : List Nat) (buffer : Nat) : Except Unit (List Nat) :=
  let kept := buffers.filter (fun b => b ≠ buffer)
  if buffers.length ≠ kept.length + 1 then .error ()
  else .ok kept

theorem length_filter_ne_add_count (buffer : Nat) :
    ∀ l : List Nat,
      (l.filter (fun b => b ≠ buffer)).length + l.count buffer = l.length
  | [] => rfl
  | a :: l => by
      have ih := length_filter_ne_add_count buffer l
      by_cases h : a = buffer
      · subst h
        simp only [List.count_cons, List.filter_cons] at ih ⊢
        simp at ih ⊢
        omega
      · simp only [List.count_cons, List.filter_cons] at ih ⊢
        simp [h] at ih ⊢
        omega

theorem count_eq_one_decomp (buffer : Nat) :
    ∀ l : List Nat, l.count buffer = 1 →
      ∃ l₁ l₂, l = l₁ ++ buffer :: l₂ ∧ buffer ∉ l₁ ∧ buffer ∉ l₂
  | [] => by intro h; simp at h
  | a :: l => by
      intro h
      by_cases ha : a = buffer
      · subst ha
        have hcnt : l.count a = 0 := by
          simp [List.count_cons] at h
          omega
        exact ⟨[], l, by simp, by simp, List.count_eq_zero.mp hcnt⟩
      · have hcnt : l.count buffer = 1 := by
          simp [List.count_cons, ha] at h
          omega
        obtain ⟨l₁, l₂, hdec, h1, h2⟩ := count_eq_one_decomp buffer l hcnt
        exact ⟨a :: l₁, l₂, by simp [hdec], by simp [h1, Ne.symm ha, ha], h2⟩

theorem filter_ne_of_not_mem {buffer : Nat} :
    ∀ {l : List Nat}, buffer ∉ l → l.filter (fun b => b ≠ buffer) = l := by
  intro l hl
  apply List.filter_eq_self.mpr
  intro a ha
  simp only [ne_eq, decide_not, Bool.not_eq_true', decide_eq_false_iff_not]
  intro h; subst h; exact hl ha

/-- **C5.**  Releasing a buffer that occurs exactly once in the registry
removes exactly that entry, preserving the others (so an allocate
followed by a release of the same, fresh buffer leaves the registry
exactly as before), while releasing a buffer that occurs zero times or
more than once is detected and reported as a fatal internal error. -/
theorem freeBuffer_spec (buffers : List Nat) (buffer : Nat) :
    (buffers.count buffer = 1 →
      ∃ l₁ l₂, buffers = l₁ ++ buffer :: l₂ ∧ buffer ∉ l₁ ∧ buffer ∉ l₂ ∧
        freeBuffer buffers buffer = .ok (l₁ ++ l₂)) ∧
    (buffer ∉ buffers → buffers.length < MAX_BUFFERS →
      (newBuffer buffers buffer).bind (fun l => freeBuffer l buffer) =
        .ok buffers) ∧
    (buffers.count buffer ≠ 1 → freeBuffer buffers buffer = .error ()) := by
  refine ⟨fun h1 => ?_, fun hnm hlen => ?_, fun hne => ?_⟩
  · obtain ⟨l₁, l₂, hdec, hm1, hm2⟩ := count_eq_one_decomp buffer buffers h1
    refine ⟨l₁, l₂, hdec, hm1, hm2, ?_⟩
    have hkept : buffers.filter (fun b => b ≠ buffer) = l₁ ++ l₂ := by
      rw [hdec, List.filter_append, List.filter_cons,
        filter_ne_of_not_mem hm1, filter_ne_of_not_mem hm2]
      simp
    have hcnt := length_filter_ne_add_count buffer buffers
    rw [h1, hkept] at hcnt
    have hcond : ¬(buffers.length ≠ (l₁ ++ l₂).length + 1) := by omega
    simp only [freeBuffer, hkept]
    rw [if_neg hcond]
  · have hkept : (buffers ++ [buffer]).filter (fun b => b ≠ buffer) =
        buffers := by
      rw [List.filter_append, filter_ne_of_not_mem hnm, List.filter_cons]
      simp
    have hif : ¬MAX_BUFFERS ≤ buffers.length := by omega
    simp only [newBuffer, if_neg hif]
    show freeBuffer (buffers ++ [buffer]) buffer = .ok buffers
    simp only [freeBuffer, hkept]
    rw [if_neg (by simp)]
  · have hcnt := length_filter_ne_add_count buffer buffers
    have hcond : buffers.length ≠
        (buffers.filter (fun b => b ≠ buffer)).length + 1 := by omega
    simp only [freeBuffer]
    rw [if_pos hcond]

/-- **C5, witness.** -/
theorem freeBuffer_spec_witness :
    (newBuffer [3, 5] 9).bind (fun l => freeBuffer l 9) = .ok [3, 5] ∧
    freeBuffer [3, 4, 5] 7 = .error () ∧
    ∃ l₁ l₂, [3, 4, 5] = l₁ ++ 4 :: l₂ ∧ (4 : Nat) ∉ l₁ ∧ (4 : Nat) ∉ l₂ ∧
      freeBuffer [3, 4, 5] 4 = .ok (l₁ ++ l₂) :=
  ⟨(freeBuffer_spec [3, 5] 9).2.1 (by decide) (by decide),
   (freeBuffer_spec [3, 4, 5] 7).2.2 (by decide),
   (freeBuffer_spec [3, 4, 5] 4).1 (by decide)⟩

/-! ## Timeout wait (eb40a-io.c, `ChannelConstants_GLOBAL_WAITFOREVENT`)

64-bit signed (`long long`) arithmetic is modelled on `Int` with explicit
two's-complement wrapping.  The successive return values of the external
`getMilliseconds()` and of `checkForEvents()` during the busy-poll loop
are supplied as oracle streams indexed by the iteration number. -/

/-- Two's-complement wrap of an integer to a signed 64-bit value
(9223372036854775808 = 2^63). -/
def wrap64 (x : Int) : Int :=
  (x + 9223372036854775808) % 18446744073709551616 - 9223372036854775808

/-- `maxValue = 0x7FFFFFFFFFFFFFFFLL` (eb40a-io.c line 194). -/
def maxJlong : Int := 9223372036854775807

/-- The combination of the two 32-bit request arguments into
`millisecondsToWait` (eb40a-io.c lines 191-192):
`(((long long)i1) << 32) | ((unsigned long long)i2 & 0xFFFFFFFF)`.
For `i1` in signed 32-bit range the shift does not overflow and the
bitwise OR coincides with addition of the disjoint bit ranges. -/
def combine64 (i1 i2 : Int) : Int :=
  wrap64 (i1 * 4294967296 + i2 % 4294967296)

/-- The deadline computation of `GLOBAL_WAITFOREVENT` (eb40a-io.c lines
190-196): `target = getMilliseconds() + millisecondsToWait` in wrapping
signed 64-bit arithmetic, replaced by `maxValue` whenever `target <= 0`
(the code's overflow detection). -/
def waitDeadline (now i1 i2 : Int) : Int :=
  let millisecondsToWait := combine64 i1 i2
  let target := wrap64 (now + millisecondsToWait)
  if target ≤ 0 then maxJlong else target

/-- The busy-poll loop of `GLOBAL_WAITFOREVENT` (eb40a-io.c lines
198-201): iteration `k` first consults `checkForEvents` (result
`checks k`), then `getMilliseconds` (result `times k`), and exits when
either the check is non-zero or the time exceeds `target`.  Returns the
exit iteration index, or `none` when the loop is still running after
`fuel` iterations. -/
def waitLoop (checks times : Nat → Int) (target : Int) :
    Nat → Nat → Option Nat
  | 0, _ => none
  | fuel + 1, k =>
    if checks k ≠ 0 then some k
    else if times k > target then some k
    else waitLoop checks times target fuel (k + 1)

/-- The whole `GLOBAL_WAITFOREVENT` case (eb40a-io.c lines 190-204):
compute the deadline, busy-poll, and set `res = 0` on every exit path.
Returns the result together with the exit iteration, or `none` if the
loop has not exited within `fuel` iterations. -/
def ioExecute_waitForEvent (now i1 i2 : Int) (checks times : Nat → Int)
    (fuel : Nat) : Option (Int × Nat) :=
  (waitLoop checks times (waitDeadline now i1 i2) fuel 0).map
    (fun k => (0, k))

/-- **C4, counterexample.**  With current time 100 and request arguments
`i1 = -1, i2 = 0` the combined 64-bit request is `-2^32`, the sum
`100 + (-2^32)` is perfectly representable (no overflow, it simply is
negative), yet the code's deadline is the saturated maximum instead of
that sum, so the wait spins towards the far future rather than returning
at once. -/
theorem waitDeadline_counterexample :
    waitDeadline 100 (-1) 0 = maxJlong ∧
    100 + combine64 (-1) 0 = -4294967196 ∧
    -(9223372036854775808 : Int) ≤ 100 + combine64 (-1) 0 ∧
    100 + combine64 (-1) 0 < 9223372036854775808 ∧
    waitDeadline 100 (-1) 0 ≠ 100 + combine64 (-1) 0 := by
  refine ⟨?_, ?_, ?_, ?_, ?_⟩ <;> decide

theorem wrap64_eq_self {x : Int} (h1 : -9223372036854775808 ≤ x)
    (h2 : x < 9223372036854775808) : wrap64 x = x := by
  unfold wrap64; omega

theorem wrap64_of_overflow {x : Int} (h1 : 9223372036854775808 ≤ x)
    (h2 : x < 18446744073709551616) :
    wrap64 x = x - 18446744073709551616 := by
  unfold wrap64; omega

theorem combine64_lt (i1 i2 : Int) :
    -9223372036854775808 ≤ combine64 i1 i2 ∧
      combine64 i1 i2 < 9223372036854775808 := by
  unfold combine64 wrap64
  omega

/-- **C4 (amended).**  The deadline is `now + millis` (the two 32-bit
arguments combined into one 64-bit value) saturated to the maximum
representable value whenever the wrapped 64-bit sum is non-positive:
for a positive clock and a non-negative requested duration this is
exactly "`now + millis`, saturating to the maximum instead of wrapping
on overflow", but a non-positive sum arising from a negative requested
duration also saturates (instead of expiring immediately).  The loop
repeats the non-consuming check until it succeeds or the observed time
exceeds the deadline, the result is 0 in both cases, and if no event
ever becomes available the wait returns only once the wall clock has
passed the deadline. -/
theorem waitForEvent_spec (now i1 i2 : Int) (checks times : Nat → Int)
    (fuel : Nat) :
    (0 < now → now < 9223372036854775808 → 0 ≤ combine64 i1 i2 →
      waitDeadline now i1 i2 =
        (if now + combine64 i1 i2 < 9223372036854775808 then
          now + combine64 i1 i2
         else maxJlong)) ∧
    (-9223372036854775808 ≤ now + combine64 i1 i2 →
      now + combine64 i1 i2 ≤ 0 →
      waitDeadline now i1 i2 = maxJlong) ∧
    (∀ r k, ioExecute_waitForEvent now i1 i2 checks times fuel =
        some (r, k) →
      r = 0 ∧ (checks k ≠ 0 ∨ times k > waitDeadline now i1 i2)) ∧
    ((∀ j, checks j = 0) →
      ∀ r k, ioExecute_waitForEvent now i1 i2 checks times fuel =
        some (r, k) →
      times k > waitDeadline now i1 i2) := by
  have hrange := combine64_lt i1 i2
  have hloop : ∀ fuel k j, waitLoop checks times
      (waitDeadline now i1 i2) fuel k = some j →
      checks j ≠ 0 ∨ times j > waitDeadline now i1 i2 := by
    intro f
    induction f with
    | zero => intro k j h; simp [waitLoop] at h
    | succ f ih =>
      intro k j h
      by_cases hc : checks k ≠ 0
      · simp only [waitLoop, if_pos hc] at h
        injection h with h; subst h; exact Or.inl hc
      · simp only [waitLoop, if_neg hc] at h
        by_cases ht : times k > waitDeadline now i1 i2
        · rw [if_pos ht] at h
          injection h with h; subst h; exact Or.inr ht
        · rw [if_neg ht] at h
          exact ih (k + 1) j h
  refine ⟨fun hn hn2 hm => ?_, fun hge hle => ?_, fun r k h => ?_,
    fun hnoev r k h => ?_⟩
  · by_cases hov : now + combine64 i1 i2 < 9223372036854775808
    · have hw : wrap64 (now + combine64 i1 i2) = now + combine64 i1 i2 :=
        wrap64_eq_self (by omega) hov
      simp only [waitDeadline, hw]
      rw [if_neg (show ¬(now + combine64 i1 i2 ≤ 0) by omega), if_pos hov]
    · have hw : wrap64 (now + combine64 i1 i2) =
          now + combine64 i1 i2 - 18446744073709551616 :=
        wrap64_of_overflow (by omega) (by omega)
      simp only [waitDeadline, hw]
      rw [if_pos
        (show now + combine64 i1 i2 - 18446744073709551616 ≤ 0 by omega),
        if_neg hov]
  · have hw : wrap64 (now + combine64 i1 i2) = now + combine64 i1 i2 :=
      wrap64_eq_self hge (by omega)
    simp only [waitDeadline, hw]
    rw [if_pos hle]
  · simp only [ioExecute_waitForEvent, Option.map_eq_some'] at h
    obtain ⟨j, hj, hjeq⟩ := h
    injection hjeq with h1 h2
    subst h1; subst h2
    exact ⟨rfl, hloop fuel 0 j hj⟩
  · simp only [ioExecute_waitForEvent, Option.map_eq_some'] at h
    obtain ⟨j, hj, hjeq⟩ := h
    injection hjeq with h1 h2
    subst h2
    rcases hloop fuel 0 j hj with hc | ht
    · exact absurd (hnoev j) hc
    · exact ht

/-- **C4 (amended), witness.**  Deadline 100 + 50 for a representable
request, saturation for a 0-or-negative sum, and a concrete run in which
no event is available and the loop exits at the first observed time
exceeding the deadline, with result 0. -/
theorem waitForEvent_spec_witness :
    waitDeadline 100 0 50 =
      (if (100 : Int) + combine64 0 50 < 9223372036854775808 then
        100 + combine64 0 50
       else maxJlong) ∧
    waitDeadline 100 (-1) 0 = maxJlong ∧
    ((0 : Int) = 0 ∧
      ((fun _ : Nat => (0 : Int)) 3 ≠ 0 ∨
        (fun k : Nat => (99 : Int) + k) 3 > waitDeadline 100 0 1)) := by
  refine ⟨?_, ?_, ?_⟩
  · exact (waitForEvent_spec 100 0 50 (fun _ => 0) (fun k => 99 + k) 5).1
      (by decide) (by decide) (by decide)
  · exact (waitForEvent_spec 100 (-1) 0 (fun _ => 0) (fun k => 99 + k) 5).2.1
      (by decide) (by decide)
  · exact (waitForEvent_spec 100 0 1 (fun _ => 0)
      (fun k => 99 + k) 5).2.2.1 0 3 (by decide)

/-! ## Debug breakpoint protocol (src/slowvm/src/vm/debug.c)

The authoritative table `db_bp_table` (addresses, 0 = unset) and the
derived fast-lookup array `db_current_ips` are modelled as lists of
naturals of lengths `DB_MAX_BPS` and `DB_MAX_BPS + 1`.  The
`OPC_EXTEND`/`OPC_EXTEND0` byte values come from generated code outside
`src/` and are parameters; fatal protocol errors are `Except.error`. -/

/-- `DB_MAX_BPS` (debug.c line 11). -/
def DB_MAX_BPS : Nat := 20

/-- The mutable debug state: `db_bp_table`, `db_current_ips` and
`db_bp_set` (debug.c lines 13-21). -/
structure DbState where
  table : List Nat
  currentIps : List Nat
  bpSet : Bool
  deriving Repr, DecidableEq

/-- `db_regenerate_current_ips` (debug.c lines 194-205): pack
`db_ip + 1` for every non-zero table entry into the front of
`db_current_ips`, zero the remaining entries up to index
`DB_MAX_BPS - 1`, and leave index `DB_MAX_BPS` untouched. -/
def db_regenerate_current_ips (s : DbState) : DbState :=
  let packed := (s.table.filter (fun a => a ≠ 0)).map (fun a => a + 1)
  { s with currentIps :=
      packed ++ List.replicate (DB_MAX_BPS - packed.length) 0 ++
        s.currentIps.drop DB_MAX_BPS }

/-- A breakpoint command of the debug protocol: `B:S:bpnum:addr` or
`B:C:bpnum` (spec §4.3). -/
inductive DbCmd where
  | set (bpnum : Nat) (addr : Nat)
  | clear (bpnum : Nat)
  deriving Repr, DecidableEq

/-- `db_process_break_cmd` (debug.c lines 207-257), parametrised by the
`OPC_EXTEND`/`OPC_EXTEND0` byte values and the bytecode memory `mem`.
An out-of-range breakpoint number is the fatal protocol error
"Breakpoint number is not valid".  A `SET` whose target byte is an
`EXTEND`-family prefix stores the address advanced past the prefix
(by 2 bytes for `OPC_EXTEND`, 1 for `OPC_EXTEND0`); `CLEAR` zeroes the
slot and recomputes `db_bp_set` by scanning the whole table.  Both
commands end by regenerating the fast-lookup array. -/
def db_process_break_cmd (opcExtend opcExtend0 : Nat) (mem : Nat → Nat)
    (s : DbState) : DbCmd → Except Unit DbState
  | .set bpnum addr =>
    if DB_MAX_BPS ≤ bpnum then .error ()
    else
      let op := mem addr
      let addr' :=
        if op = opcExtend then addr + 2
        else if op = opcExtend0 then addr + 1
        else addr
      .ok (db_regenerate_current_ips
        { s with table := s.table.set bpnum addr', bpSet := true })
  | .clear bpnum =>
    if DB_MAX_BPS ≤ bpnum then .error ()
    else
      let t := s.table.set bpnum 0
      .ok (db_regenerate_current_ips
        { s with table := t, bpSet := t.any (fun a => a ≠ 0) })

/-- The state established by `db_prepare` (debug.c lines 303-316) before
the first command is processed: table and fast-lookup array all zero
(the array has `DB_MAX_BPS + 1` entries), no breakpoint set. -/
def db_prepare : DbState :=
  ⟨List.replicate DB_MAX_BPS 0, List.replicate (DB_MAX_BPS + 1) 0, false⟩

/-- Processing a sequence of breakpoint commands in order. -/
def db_process_cmds (opcExtend opcExtend0 : Nat) (mem : Nat → Nat)
    (s : DbState) (cmds : List DbCmd) : Except Unit DbState :=
  cmds.foldlM (db_process_break_cmd opcExtend opcExtend0 mem) s

/-- The pure derivation of the fast-lookup array from the authoritative
table (spec §9 `deriveFastLookup`): the packed `addr + 1` values of the
non-zero entries followed by zero padding up to length
`DB_MAX_BPS + 1`. -/
def deriveFastLookup (table : List Nat) : List Nat :=
  let packed := (table.filter (fun a => a ≠ 0)).map (fun a => a + 1)
  packed ++ List.replicate (DB_MAX_BPS + 1 - packed.length) 0

theorem deriveFastLookup_drop (t : List Nat) (hlen : t.length = DB_MAX_BPS) :
    (deriveFastLookup t).drop DB_MAX_BPS = [0] := by
  have hple : ((t.filter (fun a => a ≠ 0)).map (fun a => a + 1)).length ≤
      DB_MAX_BPS := by
    rw [List.length_map]
    calc (t.filter (fun a => a ≠ 0)).length ≤ t.length :=
          List.length_filter_le _ _
      _ = DB_MAX_BPS := hlen
  set packed := (t.filter (fun a => a ≠ 0)).map (fun a => a + 1) with hp
  have hrep : List.replicate (DB_MAX_BPS + 1 - packed.length) (0 : Nat) =
      List.replicate (DB_MAX_BPS - packed.length) 0 ++ [0] := by
    rw [← List.replicate_succ']
    congr 1
    omega
  simp only [deriveFastLookup, ← hp, hrep, ← List.append_assoc]
  rw [List.drop_left'
    (show (packed ++ List.replicate (DB_MAX_BPS - packed.length)
      (0 : Nat)).length = DB_MAX_BPS by simp; omega)]

theorem db_regenerate_currentIps (s : DbState)
    (hlen : s.table.length = DB_MAX_BPS)
    (hdrop : s.currentIps.drop DB_MAX_BPS = [0]) :
    (db_regenerate_current_ips s).currentIps =
      deriveFastLookup s.table := by
  have hple : ((s.table.filter (fun a => a ≠ 0)).map (fun a => a + 1)).length ≤
      DB_MAX_BPS := by
    rw [List.length_map]
    calc (s.table.filter (fun a => a ≠ 0)).length ≤ s.table.length :=
          List.length_filter_le _ _
      _ = DB_MAX_BPS := hlen
  set packed := (s.table.filter (fun a => a ≠ 0)).map (fun a => a + 1)
    with hp
  have hrep : List.replicate (DB_MAX_BPS + 1 - packed.length) (0 : Nat) =
      List.replicate (DB_MAX_BPS - packed.length) 0 ++ [0] := by
    rw [← List.replicate_succ']
    congr 1
    omega
  simp only [db_regenerate_current_ips, deriveFastLookup, ← hp, hdrop, hrep,
    List.append_assoc]

theorem db_process_break_cmd_inv (opcExtend opcExtend0 : Nat)
    (mem : Nat → Nat) (s s' : DbState) (c : DbCmd)
    (hok : db_process_break_cmd opcExtend opcExtend0 mem s c = .ok s')
    (hlen : s.table.length = DB_MAX_BPS)
    (hinv : s.currentIps = deriveFastLookup s.table) :
    s'.table.length = DB_MAX_BPS ∧
      s'.currentIps = deriveFastLookup s'.table := by
  have hdrop : s.currentIps.drop DB_MAX_BPS = [0] := by
    rw [hinv]; exact deriveFastLookup_drop s.table hlen
  cases c with
  | set bpnum addr =>
    by_cases hbp : DB_MAX_BPS ≤ bpnum
    · simp [db_process_break_cmd, hbp] at hok
    · simp only [db_process_break_cmd, if_neg hbp] at hok
      injection hok with hok
      subst hok
      constructor
      · simp [db_regenerate_current_ips, hlen]
      · exact db_regenerate_currentIps _ (by simp [hlen]) hdrop
  | clear bpnum =>
    by_cases hbp : DB_MAX_BPS ≤ bpnum
    · simp [db_process_break_cmd, hbp] at hok
    · simp only [db_process_break_cmd, if_neg hbp] at hok
      injection hok with hok
      subst hok
      constructor
      · simp [db_regenerate_current_ips, hlen]
      · exact db_regenerate_currentIps _ (by simp [hlen]) hdrop

theorem db_process_cmds_inv (opcExtend opcExtend0 : Nat) (mem : Nat → Nat) :
    ∀ (cmds : List DbCmd) (s s' : DbState),
      db_process_cmds opcExtend opcExtend0 mem s cmds = .ok s' →
      s.table.length = DB_MAX_BPS →
      s.currentIps = deriveFastLookup s.table →
      s'.table.length = DB_MAX_BPS ∧
        s'.currentIps = deriveFastLookup s'.table
  | [], s, s' => by
      intro h hlen hinv
      simp only [db_process_cmds, List.foldlM_nil] at h
      have h' : (Except.ok s : Except Unit DbState) = Except.ok s' := h
      injection h' with h'
      subst h'
      exact ⟨hlen, hinv⟩
  | c :: cmds, s, s' => by
      intro h hlen hinv
      simp only [db_process_cmds, List.foldlM_cons] at h
      cases hc : db_process_break_cmd opcExtend opcExtend0 mem s c with
      | error e =>
        rw [hc] at h
        have h' : (Except.error e : Except Unit DbState) = Except.ok s' := h
        cases h'
      | ok s'' =>
        rw [hc] at h
        have h2 : db_process_cmds opcExtend opcExtend0 mem s'' cmds =
            .ok s' := h
        obtain ⟨hlen'', hinv''⟩ :=
          db_process_break_cmd_inv opcExtend opcExtend0 mem s s'' c hc
            hlen hinv
        exact db_process_cmds_inv opcExtend opcExtend0 mem cmds s'' s' h2
          hlen'' hinv''

theorem db_prepare_inv :
    db_prepare.table.length = DB_MAX_BPS ∧
      db_prepare.currentIps = deriveFastLookup db_prepare.table := by
  constructor
  · simp [db_prepare]
  · simp [db_prepare, deriveFastLookup, List.filter_replicate]

/-- **C6.**  After any successfully processed sequence of `SET`/`CLEAR`
breakpoint commands starting from the initial `db_prepare` state, the
fast-lookup array equals the pure derivation from the authoritative
table: the values `addr + 1` for the non-zero table entries in order,
packed from index 0, followed only by zeros (no stale entries). -/
theorem db_process_cmds_fastLookup (opcExtend opcExtend0 : Nat)
    (mem : Nat → Nat) (cmds : List DbCmd) (s' : DbState)
    (h : db_process_cmds opcExtend opcExtend0 mem db_prepare cmds =
      .ok s') :
    s'.currentIps = deriveFastLookup s'.table ∧
      s'.table.length = DB_MAX_BPS := by
  obtain ⟨h1, h2⟩ := db_process_cmds_inv opcExtend opcExtend0 mem cmds
    db_prepare s' h db_prepare_inv.1 db_prepare_inv.2
  exact ⟨h2, h1⟩

/-- **C6, witness.**  A concrete run: set breakpoints 0 and 3, then
clear 0; the fast-lookup array is exactly `deriveFastLookup` of the
final table. -/
theorem db_process_cmds_fastLookup_witness :
    ∃ s', db_process_cmds 230 231 (fun _ => 0) db_prepare
        [DbCmd.set 0 100, DbCmd.set 3 200, DbCmd.clear 0] = .ok s' ∧
      s'.currentIps = deriveFastLookup s'.table ∧
      s'.table.length = DB_MAX_BPS := by
  have h : db_process_cmds 230 231 (fun _ => 0) db_prepare
      [DbCmd.set 0 100, DbCmd.set 3 200, DbCmd.clear 0] =
      .ok ⟨(List.replicate DB_MAX_BPS 0).set 3 200,
        201 :: List.replicate DB_MAX_BPS 0, true⟩ := by rfl
  exact ⟨_, h, db_process_cmds_fastLookup 230 231 (fun _ => 0)
    [DbCmd.set 0 100, DbCmd.set 3 200, DbCmd.clear 0] _ h⟩

/-- **C8.**  A `SET` command with an in-range breakpoint number always
succeeds and stores the given address advanced by 2 bytes when the byte
at that address is `OPC_EXTEND`, by 1 byte when it is `OPC_EXTEND0`, and
unchanged otherwise, leaving every other slot alone; it also raises the
some-breakpoint-active flag and regenerates the fast-lookup array from
the updated table. -/
theorem db_set_cmd_spec (opcExtend opcExtend0 : Nat) (mem : Nat → Nat)
    (s : DbState) (bpnum addr : Nat) (hbp : bpnum < DB_MAX_BPS)
    (hlen : s.table.length = DB_MAX_BPS)
    (hinv : s.currentIps = deriveFastLookup s.table) :
    (∃ s', db_process_break_cmd opcExtend opcExtend0 mem s
        (DbCmd.set bpnum addr) = .ok s') ∧
    ∀ s', db_process_break_cmd opcExtend opcExtend0 mem s
        (DbCmd.set bpnum addr) = .ok s' →
      (mem addr = opcExtend → s'.table[bpnum]? = some (addr + 2)) ∧
      (mem addr ≠ opcExtend → mem addr = opcExtend0 →
        s'.table[bpnum]? = some (addr + 1)) ∧
      (mem addr ≠ opcExtend → mem addr ≠ opcExtend0 →
        s'.table[bpnum]? = some addr) ∧
      (∀ j, j ≠ bpnum → s'.table[j]? = s.table[j]?) ∧
      s'.bpSet = true ∧
      s'.currentIps = deriveFastLookup s'.table := by
  have hbp' : ¬DB_MAX_BPS ≤ bpnum := by omega
  have hdrop : s.currentIps.drop DB_MAX_BPS = [0] := by
    rw [hinv]; exact deriveFastLookup_drop s.table hlen
  have hblen : bpnum < s.table.length := by omega
  constructor
  · have heq : db_process_break_cmd opcExtend opcExtend0 mem s
        (DbCmd.set bpnum addr) =
        .ok (db_regenerate_current_ips (DbState.mk
          (s.table.set bpnum (if mem addr = opcExtend then addr + 2
            else if mem addr = opcExtend0 then addr + 1 else addr))
          s.currentIps true)) := by
      simp only [db_process_break_cmd, if_neg hbp']
    exact ⟨_, heq⟩
  · intro s' heq
    simp only [db_process_break_cmd, if_neg hbp'] at heq
    injection heq with heq
    subst heq
    refine ⟨fun h => ?_, fun h1 h2 => ?_, fun h1 h2 => ?_,
      fun j hj => ?_, rfl, ?_⟩
    · have hstore : (if mem addr = opcExtend then addr + 2
          else if mem addr = opcExtend0 then addr + 1 else addr) =
          addr + 2 := by rw [if_pos h]
      simp only [db_regenerate_current_ips, hstore]
      rw [List.getElem?_set]
      simp [hblen]
    · have hstore : (if mem addr = opcExtend then addr + 2
          else if mem addr = opcExtend0 then addr + 1 else addr) =
          addr + 1 := by rw [if_neg h1, if_pos h2]
      simp only [db_regenerate_current_ips, hstore]
      rw [List.getElem?_set]
      simp [hblen]
    · have hstore : (if mem addr = opcExtend then addr + 2
          else if mem addr = opcExtend0 then addr + 1 else addr) =
          addr := by rw [if_neg h1, if_neg h2]
      simp only [db_regenerate_current_ips, hstore]
      rw [List.getElem?_set]
      simp [hblen]
    · simp only [db_regenerate_current_ips]
      exact List.getElem?_set_ne (Ne.symm hj)
    · exact db_regenerate_currentIps _ (by simp [hlen]) hdrop

/-- **C8, witness.**  Setting breakpoint 2 at address 500 where the
bytecode byte is `OPC_EXTEND` (here 230) stores 502; slot 0 is
untouched, the active flag is raised and the fast array regenerated. -/
theorem db_set_cmd_spec_witness :
    db_process_break_cmd 230 231 (fun _ => 230) db_prepare
        (DbCmd.set 2 500) =
      .ok ⟨(List.replicate DB_MAX_BPS 0).set 2 502,
        503 :: List.replicate DB_MAX_BPS 0, true⟩ ∧
    ((DbState.mk ((List.replicate DB_MAX_BPS 0).set 2 502)
        (503 :: List.replicate DB_MAX_BPS 0) true).table[2]? = some 502 ∧
      (DbState.mk ((List.replicate DB_MAX_BPS 0).set 2 502)
        (503 :: List.replicate DB_MAX_BPS 0) true).bpSet = true) := by
  have h : db_process_break_cmd 230 231 (fun _ => 230) db_prepare
      (DbCmd.set 2 500) =
      .ok ⟨(List.replicate DB_MAX_BPS 0).set 2 502,
        503 :: List.replicate DB_MAX_BPS 0, true⟩ := by rfl
  obtain ⟨h1, _, _, _, h5, _⟩ :=
    (db_set_cmd_spec 230 231 (fun _ => 230) db_prepare 2 500 (by decide)
      (by decide) (by decide)).2 _ h
  exact ⟨h, h1 rfl, h5⟩

/-- The fast-scan loop of `db_checkBreak` (debug.c lines 318-340):
`while (bp_ip = db_current_ips[i++]) { ... }`, which keeps reading
successive entries of the fast-lookup array until it reads a zero.
`arr[i]? = none` models a read past the end of the array; the function
returns the index of the terminating zero read (the loop performed reads
at indices `0..result` only, all in bounds), and `none` if the loop ran
out of fuel or read past the end of the array. -/
def db_checkBreak_scan (arr : List Nat) : Nat → Nat → Option Nat
  | 0, _ => none
  | fuel + 1, i =>
    match arr[i]? with
    | none => none
    | some 0 => some i
    | some (_ + 1) => db_checkBreak_scan arr fuel (i + 1)

theorem db_checkBreak_scan_finds (arr : List Nat) (j : Nat)
    (hz : arr[j]? = some 0)
    (hnz : ∀ k, k < j → ∃ v, arr[k]? = some v ∧ v ≠ 0) :
    ∀ fuel i, i ≤ j → j < i + fuel →
      db_checkBreak_scan arr fuel i = some j
  | 0, i => by intro h1 h2; omega
  | fuel + 1, i => by
      intro h1 h2
      by_cases hij : i = j
      · subst hij
        simp [db_checkBreak_scan, hz]
      · have hlt : i < j := by omega
        obtain ⟨v, hv, hvne⟩ := hnz i hlt
        cases v with
        | zero => exact absurd rfl hvne
        | succ w =>
          simp only [db_checkBreak_scan, hv]
          exact db_checkBreak_scan_finds arr j hz hnz fuel (i + 1)
            (by omega) (by omega)

/-- **C9.**  After initialization and any successfully processed command
sequence, the fast-lookup array has a zero entry at an index no greater
than the table capacity `DB_MAX_BPS`, with all active (non-zero) entries
packed before it, and the fast-scan loop of the per-instruction
breakpoint check terminates exactly at that zero sentinel — every read
is at an index at most `DB_MAX_BPS`, within the array of length
`DB_MAX_BPS + 1`. -/
theorem db_checkBreak_scan_safe (opcExtend opcExtend0 : Nat)
    (mem : Nat → Nat) (cmds : List DbCmd) (s' : DbState)
    (h : db_process_cmds opcExtend opcExtend0 mem db_prepare cmds =
      .ok s') :
    ∃ j, j ≤ DB_MAX_BPS ∧ s'.currentIps[j]? = some 0 ∧
      (∀ k, k < j → ∃ v, s'.currentIps[k]? = some v ∧ v ≠ 0) ∧
      db_checkBreak_scan s'.currentIps (DB_MAX_BPS + 1) 0 = some j := by
  obtain ⟨hlen, hinv⟩ := db_process_cmds_inv opcExtend opcExtend0 mem cmds
    db_prepare s' h db_prepare_inv.1 db_prepare_inv.2
  set packed := (s'.table.filter (fun a => a ≠ 0)).map (fun a => a + 1)
    with hp
  have hple : packed.length ≤ DB_MAX_BPS := by
    rw [hp, List.length_map]
    calc (s'.table.filter (fun a => a ≠ 0)).length ≤ s'.table.length :=
          List.length_filter_le _ _
      _ = DB_MAX_BPS := hlen
  have hz : s'.currentIps[packed.length]? = some 0 := by
    rw [hinv]
    simp only [deriveFastLookup, ← hp]
    rw [List.getElem?_append_right (Nat.le_refl _), Nat.sub_self,
      List.getElem?_replicate, if_pos (by omega)]
  have hnzp : ∀ v ∈ packed, v ≠ 0 := by
    intro v hv
    rw [hp, List.mem_map] at hv
    obtain ⟨a, _, rfl⟩ := hv
    omega
  have hnz : ∀ k, k < packed.length →
      ∃ v, s'.currentIps[k]? = some v ∧ v ≠ 0 := by
    intro k hk
    rw [hinv]
    simp only [deriveFastLookup, ← hp]
    rw [List.getElem?_append, if_pos hk, List.getElem?_eq_getElem hk]
    exact ⟨packed[k], rfl, hnzp _ (List.getElem_mem hk)⟩
  exact ⟨packed.length, hple, hz, hnz,
    db_checkBreak_scan_finds s'.currentIps packed.length hz hnz
      (DB_MAX_BPS + 1) 0 (Nat.zero_le _) (by omega)⟩

/-- **C9, witness.**  The concrete state after setting breakpoints 0
and 3 and clearing 0: the scan stops at the zero sentinel at index 1. -/
theorem db_checkBreak_scan_safe_witness :
    ∃ j, j ≤ DB_MAX_BPS ∧
      (DbState.mk ((List.replicate DB_MAX_BPS 0).set 3 200)
        (201 :: List.replicate DB_MAX_BPS 0) true).currentIps[j]? =
        some 0 ∧
      (∀ k, k < j → ∃ v,
        (DbState.mk ((List.replicate DB_MAX_BPS 0).set 3 200)
          (201 :: List.replicate DB_MAX_BPS 0) true).currentIps[k]? =
          some v ∧ v ≠ 0) ∧
      db_checkBreak_scan
        (DbState.mk ((List.replicate DB_MAX_BPS 0).set 3 200)
          (201 :: List.replicate DB_MAX_BPS 0) true).currentIps
        (DB_MAX_BPS + 1) 0 = some j :=
  db_checkBreak_scan_safe 230 231 (fun _ => 0)
    [DbCmd.set 0 100, DbCmd.set 3 200, DbCmd.clear 0] _ (by rfl)

/-! ## Copy-bytes channel operation (src/slowvm/src/vm/cio.c)

The `INTERNAL_COPYBYTES` case is straight-line effectful code; it is
embedded as the sequence of memory-management actions it performs, in
order.  Addresses and offsets are `Int` (`Address_add` is plain
addition). -/

/-- An observable memory-management action of the copy-bytes path: a
call to `toggleMemoryProtection` (util.h lines 36-49), the `memmove`,
or the `checkPostWrite` consistency check (globals.h lines 303-308). -/
inductive MemAction where
  | toggleProtection (startAddr endAddr : Int) (readonly : Bool)
  | move (dst src lth : Int)
  | postWriteCheck (addr lth : Int)
  deriving Repr, DecidableEq

/-- Whether an action is a protection toggle. -/
def MemAction.isToggle : MemAction → Bool
  | .toggleProtection _ _ _ => true
  | _ => false

/-- The `ChannelConstants_INTERNAL_COPYBYTES` case of `cioExecute`
(cio.c lines 154-171) as its action trace: `lth = i1`,
`srcoffset = i2`, `dstoffset = i3`, `nvmDst = (i4 == 1)`, `src = o1`,
`dst = o2`; when `nvmDst`, the move is bracketed by
`toggleMemoryProtection(nvmStart, nvmEnd, false)` and
`toggleMemoryProtection(nvmStart, nvmEnd, true)`, and `checkPostWrite`
runs immediately after the `memmove`. -/
def cioExecute_copyBytes (nvmStart nvmEnd : Int)
    (i1 i2 i3 i4 : Int) (o1 o2 : Int) : List MemAction :=
  let lth := i1
  let srcoffset := i2
  let dstoffset := i3
  let nvmDst := i4 == 1
  let src := o1
  let dst := o2
  (if nvmDst then [MemAction.toggleProtection nvmStart nvmEnd false]
   else []) ++
  [MemAction.move (dst + dstoffset) (src + srcoffset) lth,
   MemAction.postWriteCheck (dst + dstoffset) lth] ++
  (if nvmDst then [MemAction.toggleProtection nvmStart nvmEnd true]
   else [])

/-- **C7.**  A copy-bytes operation with an NVM destination performs
exactly unprotect-NVM, then the byte move, then the post-write check,
then re-protect-NVM — so the protection bracket encloses the move and
the check runs after the move; a copy-bytes operation whose destination
is not NVM performs only the move and the check and never invokes the
protection toggle. -/
theorem cioExecute_copyBytes_spec (nvmStart nvmEnd i1 i2 i3 i4 o1 o2 :
    Int) :
    (i4 = 1 →
      cioExecute_copyBytes nvmStart nvmEnd i1 i2 i3 i4 o1 o2 =
        [MemAction.toggleProtection nvmStart nvmEnd false,
         MemAction.move (o2 + i3) (o1 + i2) i1,
         MemAction.postWriteCheck (o2 + i3) i1,
         MemAction.toggleProtection nvmStart nvmEnd true]) ∧
    (i4 ≠ 1 →
      cioExecute_copyBytes nvmStart nvmEnd i1 i2 i3 i4 o1 o2 =
        [MemAction.move (o2 + i3) (o1 + i2) i1,
         MemAction.postWriteCheck (o2 + i3) i1] ∧
      ∀ a ∈ cioExecute_copyBytes nvmStart nvmEnd i1 i2 i3 i4 o1 o2,
        a.isToggle = false) := by
  constructor
  · intro h
    simp [cioExecute_copyBytes, h]
  · intro h
    have hb : (i4 == 1) = false := by
      simp [h]
    refine ⟨by simp [cioExecute_copyBytes, hb], ?_⟩
    intro a ha
    simp [cioExecute_copyBytes, hb] at ha
    rcases ha with ha | ha <;> subst ha <;> rfl

/-- **C7, witness.** -/
theorem cioExecute_copyBytes_spec_witness :
    cioExecute_copyBytes 1000 2000 16 4 8 1 100 200 =
      [MemAction.toggleProtection 1000 2000 false,
       MemAction.move 208 104 16,
       MemAction.postWriteCheck 208 16,
       MemAction.toggleProtection 1000 2000 true] ∧
    cioExecute_copyBytes 1000 2000 16 4 8 0 100 200 =
      [MemAction.move 208 104 16, MemAction.postWriteCheck 208 16] := by
  constructor
  · have := (cioExecute_copyBytes_spec 1000 2000 16 4 8 1 100 200).1 rfl
    simpa using this
  · have := ((cioExecute_copyBytes_spec 1000 2000 16 4 8 0 100 200).2
      (by decide)).1
    simpa using this
